import Mathlib

/-!
Shallow embedding of the synchronization engine of netbox-sync
(module/netbox/connection.py) and proofs about it.

Each definition mirrors one function, or one self-contained fragment, of
the Python source; the source location is named in the doc comment.
-/

namespace NetboxSync

/-! ## API client: response classification (NetBoxHandler.request, lines 287-335) -/

/-- The value a single call of `NetBoxHandler.request` can produce:
the parsed JSON payload, the boolean True after a 204 deletion,
or Python None. -/
inductive NBResult (α : Type) where
  | value (v : α)
  | boolTrue
  | pyNone
  deriving DecidableEq, Repr

/-- Whether the run survives the request: `do_error_exit` terminates the
whole program, everything else returns a value to the caller. -/
inductive RunOutcome (α : Type) where
  | ok (r : NBResult α)
  | fatalExit
  deriving DecidableEq, Repr

/-- Lines 287-290: `result = response.json()` with a JSONDecodeError caught;
a body of `none` models an unparseable body, leaving `result` as None. -/
def parsedBody {α : Type} (body : Option α) : NBResult α :=
  match body with
  | some b => NBResult.value b
  | none => NBResult.pyNone

/-- Status dispatch of `NetBoxHandler.request`, lines 292-335:
the if/elif chain over `response.status_code`.  200 and 201 return the
parsed body, 204 returns True, 403 calls `do_error_exit`, the remaining
codes in [400, 500) log and return None, codes at or above 500 call
`do_error_exit`; any other status falls through and returns the parsed
body unchanged. -/
def classifyResponse {α : Type} (status : Nat) (body : Option α) : RunOutcome α :=
  if status = 200 then
    RunOutcome.ok (parsedBody body)
  else if status = 201 ∨ status = 204 then
    (if status = 204 then RunOutcome.ok NBResult.boolTrue
     else RunOutcome.ok (parsedBody body))
  else if status = 403 then
    RunOutcome.fatalExit
  else if 400 ≤ status ∧ status < 500 then
    RunOutcome.ok NBResult.pyNone
  else if 500 ≤ status then
    RunOutcome.fatalExit
  else
    RunOutcome.ok (parsedBody body)

/-! ## API client: pagination (NetBoxHandler.request, lines 292-301) -/

/-- One page of a paginated GET response: envelope with a results list and
an optional locator of the next page. -/
structure Page (α : Type) where
  results : List α
  next : Option Nat
  deriving DecidableEq, Repr

/-- The while-loop of lines 296-301: while the latest response carries a
next locator, fetch it and extend the accumulated results.  `fuel` bounds
the loop for termination; the chain theorems supply enough fuel to reach
the final page. -/
def followPages {α : Type} (server : Nat → Page α) : Nat → List α → Option Nat → List α
  | 0, acc, _ => acc
  | _, acc, none => acc
  | fuel + 1, acc, some loc =>
      let p := server loc
      followPages server fuel (acc ++ p.results) p.next

/-- A 200 GET (lines 292-301): take the first page at `start`, then follow
next locators, concatenating results in server order. -/
def paginatedGet {α : Type} (server : Nat → Page α) (start : Nat) (fuel : Nat) : List α :=
  let p := server start
  followPages server fuel p.results p.next

/-- A server whose pages form a finite chain: page `i` holds the i-th
results block and points at page `i + 1` unless it is the last block. -/
def chainServer {α : Type} (pages : List (List α)) : Nat → Page α :=
  fun i => ⟨pages.getD i [], if i + 1 < pages.length then some (i + 1) else none⟩

/-! ## Incremental cache: merge of cached, brief and delta data
(NetBoxHandler.query_current_data, lines 499-518) -/

/-- A raw NetBox record as stored in the cache or returned by the API:
an id plus an abstract payload distinguishing record contents. -/
structure CacheRec where
  id : Nat
  payload : Nat
  deriving DecidableEq, Repr

/-- Lines 508-518: keep every cached record whose id is among the
currently existing ids (brief list) and not among the changed ids, then
extend with the freshly fetched changed records. -/
def mergeCachedData (cached : List CacheRec) (briefResults updatedResults : List CacheRec) :
    List CacheRec :=
  let currentlyExistingIds := briefResults.map (fun x => x.id)
  let changedIds := updatedResults.map (fun x => x.id)
  (cached.filter (fun x =>
      currentlyExistingIds.contains x.id && !(changedIds.contains x.id)))
    ++ updatedResults

/-! ## Synchronizer: upsert field partitioning
(NetBoxHandler.update_object, lines 622-639 and 671-675) -/

/-- A field value held in the data mapping of a record instance: a plain
scalar, or a reference (a NetBoxObject or NBObjectList value) whose
usable wire value is its remote identifier, none while the referenced
target has not been created remotely. -/
inductive FieldValue where
  | scalar (v : Nat)
  | ref (nbRef : Option Nat)
  deriving DecidableEq, Repr

/-- A value placed into the outgoing patch mapping: a scalar copied
verbatim, or a resolved remote identifier of a reference target. -/
inductive PatchValue where
  | scalar (v : Nat)
  | refId (i : Nat)
  deriving DecidableEq, Repr

/-- The deferral condition of lines 630-633 of update_object: a field is
put into unresolved_dependency_data when it is a reference value and
either get_nb_reference() is None, or the key starts with primary_ip
while last_run is false.  Scalars are never deferred. -/
def deferField (lastRun : Bool) (key : String) (value : FieldValue) : Bool :=
  match value with
  | FieldValue.scalar _ => false
  | FieldValue.ref r => r.isNone || (key.startsWith "primary_ip" && !lastRun)

/-- The wire value a non-deferred field contributes to data_to_patch
(lines 636 and 639): the resolved remote identifier for a reference,
the value itself for a scalar. -/
def patchValueOf (value : FieldValue) : PatchValue :=
  match value with
  | FieldValue.scalar v => PatchValue.scalar v
  | FieldValue.ref r => PatchValue.refId (r.getD 0)

/-- Lines 622-639 of update_object: walk the data mapping; fields in
updated_items are split into the outgoing patch (data_to_patch) and the
deferred mapping (unresolved_dependency_data) according to deferField. -/
def partitionUpdatedItems (lastRun : Bool) (updatedItems : List String)
    (data : List (String × FieldValue)) :
    List (String × PatchValue) × List (String × FieldValue) :=
  let updatedFields := data.filter (fun kv => updatedItems.contains kv.1)
  ((updatedFields.filter (fun kv => !(deferField lastRun kv.1 kv.2))).map
      (fun kv => (kv.1, patchValueOf kv.2)),
    updatedFields.filter (fun kv => deferField lastRun kv.1 kv.2))

/-- The mutable parts of a record instance that field deferral touches. -/
structure NBInstanceModel where
  data : List (String × FieldValue)
  updated_items : List String
  deriving DecidableEq, Repr

/-- Modelled from the spec: NetBoxObject.update, called at line 675 of
update_object to re-add the deferred mapping to the instance, lives in
module/netbox/object_classes.py which is not part of the sources here.
Per the spec (section 3 and section 4.3), update merges the supplied
fields into the data mapping and marks each supplied field name as
locally changed and not yet pushed, so a deferred field is a member of
updated_items again for a later pass. -/
def instanceUpdate (inst : NBInstanceModel) (newData : List (String × FieldValue)) :
    NBInstanceModel :=
  let newKeys := newData.map Prod.fst
  { data := inst.data.filter (fun kv => !(newKeys.contains kv.1)) ++ newData,
    updated_items :=
      inst.updated_items ++ newKeys.filter (fun k => !(inst.updated_items.contains k)) }

/-! ## Pruning engine: timestamps (NetBoxHandler.prune_data, lines 723-812) -/

/-- The tag added to all objects handled by the program
(NetBoxHandler.primary_tag, line 52). -/
def primary_tag : String := "NetBox-synced"

/-- The tag for objects no longer present in any source
(NetBoxHandler.orphaned_tag, line 55). -/
def orphaned_tag : String := "NetBox-synced: Orphaned"

/-- A wall-clock instant at second precision, as Python datetime holds it
after parsing with format %Y-%m-%dT%H:%M:%S. -/
structure DateTime where
  year : Nat
  month : Nat
  day : Nat
  hour : Nat
  minute : Nat
  second : Nat
  deriving DecidableEq, Repr

/-- Numeric value of a decimal digit character. -/
def digitVal (c : Char) : Nat := c.toNat - '0'.toNat

/-- Whether a Gregorian year is a leap year, as Python datetime has it. -/
def isLeapYear (y : Nat) : Bool := (y % 4 == 0) && (y % 100 != 0 || y % 400 == 0)

/-- Number of days of a month of the proleptic Gregorian calendar. -/
def daysInMonth (y m : Nat) : Nat :=
  if m = 2 then (if isLeapYear y then 29 else 28)
  else if m = 4 ∨ m = 6 ∨ m = 9 ∨ m = 11 then 30
  else 31

/-- Days from 1970-01-01 of a proleptic Gregorian date (the civil-days
algorithm); agrees with Python date ordinals shifted to the epoch, and
so with Python datetime subtraction at day granularity. -/
def daysFromCivil (y m d : Nat) : Int :=
  let yAdj := if m ≤ 2 then y - 1 else y
  let era := yAdj / 400
  let yoe := yAdj % 400
  let mp := (m + 9) % 12
  let doy := (153 * mp + 2) / 5 + d - 1
  let doe := yoe * 365 + yoe / 4 - yoe / 100 + doy
  (era : Int) * 146097 + (doe : Int) - 719468

/-- Seconds from the epoch of an instant, the resolution at which the
truncated last_updated values are compared. -/
def dtToSeconds (dt : DateTime) : Int :=
  daysFromCivil dt.year dt.month dt.day * 86400
    + dt.hour * 3600 + dt.minute * 60 + dt.second

/-- The days attribute of a Python timedelta between two datetimes:
floor division of the signed difference in seconds by 86400. -/
def timedeltaDays (a b : DateTime) : Int :=
  Int.fdiv (dtToSeconds a - dtToSeconds b) 86400

/-- One numeric field of the strptime format: Python first lets the
field match two digits (accepted when the two-digit value is admitted),
otherwise one digit; a digit can never be a separator, so a failed
two-digit match cannot backtrack into a successful overall parse. -/
def parseField2or1 (ok2 ok1 : Nat → Bool) : List Char → Option (Nat × List Char)
  | c1 :: c2 :: rest =>
      if c1.isDigit && c2.isDigit then
        let v := 10 * digitVal c1 + digitVal c2
        if ok2 v then some (v, rest) else none
      else if c1.isDigit then
        let v := digitVal c1
        if ok1 v then some (v, c2 :: rest) else none
      else none
  | [c1] =>
      if c1.isDigit && ok1 (digitVal c1) then some (digitVal c1, []) else none
  | [] => none

/-- The literal separators of the format. -/
def expectChar (c : Char) : List Char → Option (List Char)
  | c1 :: rest => if c1 = c then some rest else none
  | [] => none

/-- datetime.strptime(s, format %Y-%m-%dT%H:%M:%S), line 776: four year
digits, month 1-12, day 1-31, hour 0-23, minute and second 0-59, with
nothing left over, then the datetime constructor validates the year
(at least 1) and the day against the month length.  A None result
models the ValueError the code catches. -/
def strptimeYmdHMS (s : String) : Option DateTime :=
  match s.data with
  | y1 :: y2 :: y3 :: y4 :: rest =>
      if y1.isDigit && y2.isDigit && y3.isDigit && y4.isDigit then do
        let y := 1000 * digitVal y1 + 100 * digitVal y2 + 10 * digitVal y3 + digitVal y4
        let rest ← expectChar '-' rest
        let (mo, rest) ← parseField2or1
          (fun v => decide (1 ≤ v ∧ v ≤ 12)) (fun v => decide (1 ≤ v)) rest
        let rest ← expectChar '-' rest
        let (d, rest) ← parseField2or1
          (fun v => decide (1 ≤ v ∧ v ≤ 31)) (fun v => decide (1 ≤ v)) rest
        let rest ← expectChar 'T' rest
        let (h, rest) ← parseField2or1 (fun v => decide (v ≤ 23)) (fun _ => true) rest
        let rest ← expectChar ':' rest
        let (mi, rest) ← parseField2or1 (fun v => decide (v ≤ 59)) (fun _ => true) rest
        let rest ← expectChar ':' rest
        let (se, rest) ← parseField2or1 (fun v => decide (v ≤ 59)) (fun _ => true) rest
        if rest = [] ∧ 1 ≤ y ∧ d ≤ daysInMonth y mo then
          some ⟨y, mo, d, h, mi, se⟩
        else none
      else none
  | _ => none

/-- The attributes of a record instance that prune_data reads. -/
structure PruneObject where
  source : Option Nat
  tags : List String
  last_updated : Option String
  deleted : Bool
  deriving DecidableEq, Repr

/-- The per-instance decision of prune_data (lines 743-783): true exactly
when a DELETE is issued for the instance.  In order: skip instances with
a source, without the orphaned tag, without a last_updated value, with a
tag of a currently disabled source, already deleted; then truncate the
timestamp to 19 characters, parse it (a failure skips), and delete when
the whole days since then reach the configured delay. -/
def pruneWouldDelete (today : DateTime) (disabledSourceTags : List String)
    (pruneDelayInDays : Nat) (obj : PruneObject) : Bool :=
  if obj.source.isSome then false
  else if !(obj.tags.contains orphaned_tag) then false
  else
    match obj.last_updated with
    | none => false
    | some raw =>
        if obj.tags.any (fun t => disabledSourceTags.contains t) then false
        else if obj.deleted then false
        else
          match strptimeYmdHMS (raw.take 19) with
          | none => false
          | some lastUpd =>
              decide ((pruneDelayInDays : Int) ≤ timedeltaDays today lastUpd)

/-- The attributes of a device or VM interface that the interface
deletion loop of prune_data reads (lines 793-805). -/
structure InterfaceObj where
  deleted : Bool
  nb_id : Nat
  deriving DecidableEq, Repr

/-- Lines 793-805: before a device or VM is deleted, a DELETE is issued
for each of its interfaces not already marked deleted; the result is the
list of targeted interface ids. -/
def deleteInterfacesRequests (ifaces : List InterfaceObj) : List Nat :=
  (ifaces.filter (fun i => !i.deleted)).map (fun i => i.nb_id)

/-! ## Bulk teardown (NetBoxHandler.just_delete_all_the_things,
lines 814-879) -/

/-- The attributes of an inventory object that a teardown round reads:
whether its record type carries the prune flag, whether the type is the
tag type (processed last), the deleted flag, the tag list, and whether a
DELETE for it would return a non-None result. -/
structure TearObj where
  prune : Bool
  isTag : Bool
  deleted : Bool
  tags : List String
  delOk : Bool
  deriving DecidableEq, Repr

/-- Lines 835-850: an object is visited by a round when its type is
prunable, its type is not the tag type, and it is not already deleted;
any such object raises the found_objects_to_delete flag. -/
def teardownEligible (o : TearObj) : Bool := o.prune && !o.isTag && !o.deleted

/-- The objects a round issues a DELETE for (lines 852-855): the visited
objects that carry the primary tag. -/
def teardownRoundRequests (objs : List TearObj) : List TearObj :=
  objs.filter (fun o => teardownEligible o && o.tags.contains primary_tag)

/-- The state after a round: a visited object with the primary tag whose
DELETE returned non-None is marked deleted (lines 855-858). -/
def teardownRoundUpdate (objs : List TearObj) : List TearObj :=
  objs.map (fun o =>
    if teardownEligible o && o.tags.contains primary_tag && o.delOk then
      { o with deleted := true }
    else o)

/-- The found_objects_to_delete flag of a round (lines 833, 850). -/
def teardownRoundFound (objs : List TearObj) : Bool :=
  objs.any teardownEligible

/-- The bounded loop of lines 829-877: run rounds while objects to delete
are found, at most `fuel` of them.  Returns the trace of per-round found
flags and whether the two bookkeeping tag records were deleted (the
branch of lines 860-874); exhausting the rounds without a not-found
round ends in the warning of line 877 with the tags kept. -/
def teardownLoop : Nat → List TearObj → List Bool × Bool
  | 0, _ => ([], false)
  | fuel + 1, objs =>
      if teardownRoundFound objs then
        (true :: (teardownLoop fuel (teardownRoundUpdate objs)).1,
          (teardownLoop fuel (teardownRoundUpdate objs)).2)
      else ([false], true)

/-- just_delete_all_the_things: exactly 10 rounds are attempted
(range(10), line 829). -/
def justDeleteAllTheThings (objs : List TearObj) : List Bool × Bool :=
  teardownLoop 10 objs

/-! ## Synchronizer: dependency recursion and the resolved set
(update_object lines 582-588 and 679-680, update_instance lines 696-711) -/

/-- update_object seen at record-type granularity, with record types as
numbers and per-type declared dependencies.  For a type t: dependencies
not yet in the resolved set are recursively processed first (lines
585-588, the guard of line 586), then the instances of t are iterated
(appending t to the log), and t is added to the resolved set afterwards
(line 680).  The state is the pair of the resolved set and the log of
type iterations; fuel bounds the recursion depth, which the code leaves
to the finiteness of the declared dependency graph. -/
def updateObjectRun (deps : Nat → List Nat) :
    Nat → Nat → List Nat × List Nat → List Nat × List Nat
  | 0, _, st => st
  | fuel + 1, t, st =>
      let st1 := (deps t).foldl
        (fun s d => if d ∈ s.1 then s else updateObjectRun deps fuel d s) st
      (t :: st1.1, st1.2 ++ [t])

/-- One pass of update_instance (lines 696-711): the resolved set is
reset, then update_object is called for every record type in declaration
order, without consulting the resolved set at top level.  Returns the
log of type iterations. -/
def synchronizerPass (deps : Nat → List Nat) (types : List Nat) (fuel : Nat) : List Nat :=
  (types.foldl (fun st t => updateObjectRun deps fuel t st) ([], [])).2

/-! ## Incremental cache: reading the cache file
(query_current_data lines 436-482) -/

/-- One element of an unpickled cache list: a mapping carrying an
optional last_updated value, or a value that is not a mapping, on which
the attribute access of line 449 would raise. -/
inductive CacheEntry where
  | dict (last_updated : Option String)
  | nonDict
  deriving DecidableEq, Repr

/-- What reading and unpickling the cache file yields: a load failure
(absent file, unreadable or unpicklable content, all caught by lines
438-441), or a Python value, either None or a list of entries. -/
inductive PickleLoad where
  | loadFail
  | loaded (v : Option (List CacheEntry))
  deriving DecidableEq, Repr

/-- Lines 436-458 of query_current_data: read cached data, tolerating
load failures (cached stays empty) and a None value (replaced by the
empty list, line 443); with a nonempty list, build the timestamp list of
line 448, whose attribute access raises an uncaught AttributeError on a
non-mapping entry, modelled as Except.error; the latest update is the
maximum timestamp (sorted last, line 452), and cache_this_class is
cleared when no entry carries a timestamp (lines 457-458, testing_cache
being False in production, line 61).  Returns cached data, the latest
update value and the cache_this_class flag. -/
def readCachedData (load : PickleLoad) :
    Except String (List CacheEntry × Option String × Bool) :=
  let cached : List CacheEntry :=
    match load with
    | PickleLoad.loadFail => []
    | PickleLoad.loaded none => []
    | PickleLoad.loaded (some es) => es
  if cached.length > 0 then
    if cached.any (fun e =>
        match e with
        | CacheEntry.nonDict => true
        | CacheEntry.dict _ => false) then
      Except.error "AttributeError"
    else
      match cached.filterMap (fun e =>
          match e with
          | CacheEntry.dict lu => lu
          | CacheEntry.nonDict => none) with
      | [] => Except.ok (cached, none, false)
      | x :: xs => Except.ok (cached, some (xs.foldl (fun a b => if a < b then b else a) x), true)
  else
    Except.ok (cached, none, true)

/-- Line 474: with no latest update value from the cache, all objects of
the type are fetched (a full fetch); otherwise the incremental brief and
delta fetches run.  Propagates the uncaught error of the read. -/
def cacheFetchIsFull (load : PickleLoad) : Except String Bool :=
  match readCachedData load with
  | Except.error e => Except.error e
  | Except.ok (_, latest, _) => Except.ok latest.isNone

end NetboxSync

namespace NetboxSync

/-! ## Theorems -/

lemma followPages_chain {α : Type} (pages : List (List α)) :
    ∀ (k i : Nat) (acc : List α), i + k = pages.length →
      followPages (chainServer pages) k acc
        (if i < pages.length then some i else none) =
      acc ++ (pages.drop i).flatten := by
  intro k
  induction k with
  | zero =>
      intro i acc h
      have hi : ¬ i < pages.length := by omega
      simp [followPages, hi, List.drop_eq_nil_of_le (by omega : pages.length ≤ i)]
  | succ k ih =>
      intro i acc h
      have hi : i < pages.length := by omega
      simp only [hi, if_pos]
      rw [followPages]
      have hnext := ih (i + 1) (acc ++ (chainServer pages i).results) (by omega)
      simp only [chainServer] at hnext ⊢
      rw [hnext]
      have hdrop : pages.drop i = pages.getD i [] :: pages.drop (i + 1) := by
        rw [List.getD_eq_getElem pages [] hi]
        exact (List.drop_eq_getElem_cons hi)
      rw [hdrop]
      simp

/-- C7: a GET over a chain of pages returns the concatenation of all
pages, in server order, stopping once a page has no next locator;
3 pages of 2 results each yield the 6 results in original order. -/
theorem getPaginated_concatenates_pages :
    (∀ (α : Type) (pages : List (List α)), 0 < pages.length →
      paginatedGet (chainServer pages) 0 (pages.length - 1) = pages.flatten) ∧
    paginatedGet (chainServer [[10, 11], [12, 13], [14, 15]]) 0 2
      = [10, 11, 12, 13, 14, 15] := by
  constructor
  · intro α pages hlen
    unfold paginatedGet
    have h := followPages_chain pages (pages.length - 1) 1 (chainServer pages 0).results
      (by omega)
    simp only [chainServer] at h ⊢
    by_cases h1 : 1 < pages.length
    · simp only [if_pos h1] at h ⊢
      simp only [Nat.zero_add]
      rw [h]
      rcases pages with _ | ⟨p0, rest⟩
      · simp at hlen
      · simp
    · have hlen1 : pages.length = 1 := by omega
      simp only [if_neg h1] at h ⊢
      rw [h]
      rcases pages with _ | ⟨p0, rest⟩
      · simp at hlen
      · have hrest : rest = [] := by
          simp only [List.length_cons] at hlen1
          exact List.length_eq_zero.mp (by omega)
        subst hrest
        simp
  · rfl

/-- C7 witness: the general part applied to 3 concrete pages of 2. -/
theorem getPaginated_concatenates_pages_witness :
    paginatedGet (chainServer [[1, 2], [3, 4], [5, 6]]) 0 2 = [1, 2, 3, 4, 5, 6] := by
  have h := getPaginated_concatenates_pages.1 Nat [[1, 2], [3, 4], [5, 6]] (by decide)
  simpa using h

/-- C2: response status classification of NetBoxHandler.request:
200 returns the (possibly paginated) payload, 201 the created
representation, 204 the boolean true, 403 aborts the run, any other
status in [400, 500) returns None with the run continuing, and any
status at or above 500 aborts the run. -/
theorem classifyResponse_spec {α : Type} (status : Nat) (body : Option α) :
    (status = 200 → classifyResponse status body = RunOutcome.ok (parsedBody body)) ∧
    (status = 201 → classifyResponse status body = RunOutcome.ok (parsedBody body)) ∧
    (status = 204 → classifyResponse status body = RunOutcome.ok NBResult.boolTrue) ∧
    (status = 403 → classifyResponse status body = RunOutcome.fatalExit) ∧
    (400 ≤ status → status < 500 → status ≠ 403 →
      classifyResponse status body = RunOutcome.ok NBResult.pyNone) ∧
    (500 ≤ status → classifyResponse status body = RunOutcome.fatalExit) := by
  refine ⟨?_, ?_, ?_, ?_, ?_, ?_⟩
  · rintro rfl; rfl
  · rintro rfl; rfl
  · rintro rfl; rfl
  · rintro rfl; rfl
  · intro h4 h5 h403
    have h200 : status ≠ 200 := by omega
    have h201 : ¬ (status = 201 ∨ status = 204) := by omega
    simp [classifyResponse, h200, h201, h403, h4, h5]
  · intro h5
    have h200 : status ≠ 200 := by omega
    have h201 : ¬ (status = 201 ∨ status = 204) := by omega
    have h403 : status ≠ 403 := by omega
    have h4xx : ¬ (400 ≤ status ∧ status < 500) := by omega
    simp [classifyResponse, h200, h201, h403, h4xx, h5]

/-- C2 witness: the classification evaluated at the six representative
statuses 200, 201, 204, 403, 404 and 500. -/
theorem classifyResponse_spec_witness :
    classifyResponse 200 (some 7) = RunOutcome.ok (parsedBody (some 7)) ∧
    classifyResponse 201 (some 7) = RunOutcome.ok (parsedBody (some 7)) ∧
    classifyResponse 204 (some 7) = RunOutcome.ok NBResult.boolTrue ∧
    classifyResponse 403 (some 7) = RunOutcome.fatalExit ∧
    classifyResponse 404 (some 7) = RunOutcome.ok NBResult.pyNone ∧
    classifyResponse 500 (some 7) = RunOutcome.fatalExit := by
  refine ⟨(classifyResponse_spec 200 (some 7)).1 rfl,
          (classifyResponse_spec 201 (some 7)).2.1 rfl,
          (classifyResponse_spec 204 (some 7)).2.2.1 rfl,
          (classifyResponse_spec 403 (some 7)).2.2.2.1 rfl,
          (classifyResponse_spec 404 (some 7)).2.2.2.2.1 (by decide) (by decide) (by decide),
          (classifyResponse_spec 500 (some 7)).2.2.2.2.2 (by decide)⟩

lemma mem_mergeCachedData (cached brief updated : List CacheRec) (x : CacheRec) :
    x ∈ mergeCachedData cached brief updated ↔
      (x ∈ cached ∧ x.id ∈ brief.map (fun b => b.id) ∧
        x.id ∉ updated.map (fun u => u.id)) ∨ x ∈ updated := by
  simp only [mergeCachedData, List.mem_append, List.mem_filter, Bool.and_eq_true,
    Bool.not_eq_true', ← Bool.not_eq_true]
  constructor
  · rintro (⟨hc, hb, hch⟩ | hu)
    · exact Or.inl ⟨hc, by simpa [List.elem_iff] using hb, by simpa [List.elem_iff] using hch⟩
    · exact Or.inr hu
  · rintro (⟨hc, hb, hch⟩ | hu)
    · exact Or.inl ⟨hc, by simpa [List.elem_iff] using hb, by simpa [List.elem_iff] using hch⟩
    · exact Or.inr hu

/-- C3: the merged result of the incremental cache is exactly the cached
records whose id is in the brief list and not among the changed ids,
together with all freshly fetched changed records; a cached record whose
id is absent from the brief list appears nowhere (when changed ids come
from currently existing records); with 10 cached records, a brief list
of 9 of their ids and 2 changed records among those 9, the merged set
has exactly 9 records and the removed id is absent. -/
theorem mergeCachedData_spec :
    (∀ (cached brief updated : List CacheRec) (x : CacheRec),
        x ∈ mergeCachedData cached brief updated ↔
          (x ∈ cached ∧ x.id ∈ brief.map (fun b => b.id) ∧
            x.id ∉ updated.map (fun u => u.id)) ∨ x ∈ updated) ∧
    (∀ (cached brief updated : List CacheRec),
        (∀ u ∈ updated, u.id ∈ brief.map (fun b => b.id)) →
        ∀ c ∈ cached, c.id ∉ brief.map (fun b => b.id) →
          c ∉ mergeCachedData cached brief updated) ∧
    ((mergeCachedData
        [⟨1, 0⟩, ⟨2, 0⟩, ⟨3, 0⟩, ⟨4, 0⟩, ⟨5, 0⟩, ⟨6, 0⟩, ⟨7, 0⟩, ⟨8, 0⟩, ⟨9, 0⟩, ⟨10, 0⟩]
        [⟨1, 0⟩, ⟨2, 0⟩, ⟨3, 0⟩, ⟨4, 0⟩, ⟨5, 0⟩, ⟨6, 0⟩, ⟨7, 0⟩, ⟨8, 0⟩, ⟨9, 0⟩]
        [⟨2, 1⟩, ⟨3, 1⟩]).length = 9 ∧
      ∀ x ∈ mergeCachedData
        [⟨1, 0⟩, ⟨2, 0⟩, ⟨3, 0⟩, ⟨4, 0⟩, ⟨5, 0⟩, ⟨6, 0⟩, ⟨7, 0⟩, ⟨8, 0⟩, ⟨9, 0⟩, ⟨10, 0⟩]
        [⟨1, 0⟩, ⟨2, 0⟩, ⟨3, 0⟩, ⟨4, 0⟩, ⟨5, 0⟩, ⟨6, 0⟩, ⟨7, 0⟩, ⟨8, 0⟩, ⟨9, 0⟩]
        [⟨2, 1⟩, ⟨3, 1⟩], x.id ≠ 10) := by
  refine ⟨mem_mergeCachedData, ?_, by decide, by decide⟩
  intro cached brief updated hupd c hc hcb hmem
  rcases (mem_mergeCachedData cached brief updated c).mp hmem with ⟨_, hb, _⟩ | hu
  · exact hcb hb
  · exact hcb (hupd c hu)

/-- C3 witness: the absent-id part applied to a concrete cached record
whose id is missing from the brief list. -/
theorem mergeCachedData_spec_witness :
    (⟨10, 0⟩ : CacheRec) ∉ mergeCachedData [⟨10, 0⟩] [⟨1, 0⟩] [] :=
  mergeCachedData_spec.2.1 [⟨10, 0⟩] [⟨1, 0⟩] [] (by intro u hu; simp at hu)
    ⟨10, 0⟩ (by decide) (by decide)

lemma keyVal_unique {β : Type} :
    ∀ (data : List (String × β)) (k : String) (a b : β),
      (data.map Prod.fst).Nodup → (k, a) ∈ data → (k, b) ∈ data → a = b := by
  intro data
  induction data with
  | nil => intro k a b _ ha; simp at ha
  | cons kv rest ih =>
      intro k a b hnd ha hb
      rcases kv with ⟨k', v'⟩
      simp only [List.map_cons, List.nodup_cons] at hnd
      rcases List.mem_cons.mp ha with heq | hta
      · rcases List.mem_cons.mp hb with heq' | htb
        · rw [Prod.mk.injEq] at heq heq'
          rw [heq.2, heq'.2]
        · exfalso
          rw [Prod.mk.injEq] at heq
          exact hnd.1 (by
            rw [← heq.1]
            exact List.mem_map.mpr ⟨(k, b), htb, rfl⟩)
      · rcases List.mem_cons.mp hb with heq' | htb
        · exfalso
          rw [Prod.mk.injEq] at heq'
          exact hnd.1 (by
            rw [← heq'.1]
            exact List.mem_map.mpr ⟨(k, a), hta, rfl⟩)
        · exact ih k a b hnd.2 hta htb

lemma mem_partition_deferred (lastRun : Bool) (u : List String)
    (data : List (String × FieldValue)) (key : String) (value : FieldValue) :
    (key, value) ∈ (partitionUpdatedItems lastRun u data).2 ↔
      (key, value) ∈ data ∧ key ∈ u ∧ deferField lastRun key value = true := by
  simp only [partitionUpdatedItems, List.mem_filter, List.elem_iff]
  tauto

lemma mem_partition_patch (lastRun : Bool) (u : List String)
    (data : List (String × FieldValue)) (key : String) (pv : PatchValue) :
    (key, pv) ∈ (partitionUpdatedItems lastRun u data).1 ↔
      ∃ v, (key, v) ∈ data ∧ key ∈ u ∧ deferField lastRun key v = false ∧
        pv = patchValueOf v := by
  unfold partitionUpdatedItems
  simp only [List.mem_map, List.mem_filter, List.elem_iff, Bool.not_eq_true']
  constructor
  · rintro ⟨⟨k, v⟩, ⟨⟨hmem, hu⟩, hdef⟩, heq⟩
    rw [Prod.mk.injEq] at heq
    obtain ⟨hk, hpv⟩ := heq
    subst hk
    exact ⟨v, hmem, hu, hdef, hpv.symm⟩
  · rintro ⟨v, hmem, hu, hdef, hpv⟩
    refine ⟨(key, v), ⟨⟨hmem, hu⟩, hdef⟩, ?_⟩
    rw [Prod.mk.injEq]
    exact ⟨rfl, hpv.symm⟩


lemma instanceUpdate_marks (inst : NBInstanceModel) (nd : List (String × FieldValue))
    (k : String) (hk : k ∈ nd.map Prod.fst) :
    k ∈ (instanceUpdate inst nd).updated_items := by
  simp only [instanceUpdate, List.mem_append]
  by_cases hmem : k ∈ inst.updated_items
  · exact Or.inl hmem
  · refine Or.inr (List.mem_filter.mpr ⟨hk, ?_⟩)
    simp [List.elem_iff, hmem]

/-- C1: in upsert mode, for a field of updated_items in the data mapping
of an instance: a reference whose target has no remote identifier is
excluded from the outgoing patch and re-added to the instance (it is a
member of updated_items again after the merge of the deferred mapping);
a primary_ip field is excluded and re-added whenever the pass is not the
final one even when its target has a remote identifier; in the final
pass a primary_ip field whose target has a remote identifier is included
in the outgoing patch as the resolved identifier. -/
theorem updateObject_upsert_partition
    (lastRun : Bool) (u : List String) (data : List (String × FieldValue))
    (inst : NBInstanceModel) (key : String) (value : FieldValue)
    (hnodup : (data.map Prod.fst).Nodup)
    (hmem : (key, value) ∈ data) (hupd : key ∈ u) :
    (value = FieldValue.ref none →
      key ∉ (partitionUpdatedItems lastRun u data).1.map Prod.fst ∧
      (key, value) ∈ (partitionUpdatedItems lastRun u data).2 ∧
      key ∈ (instanceUpdate inst (partitionUpdatedItems lastRun u data).2).updated_items) ∧
    (∀ i, value = FieldValue.ref (some i) → key.startsWith "primary_ip" = true →
      lastRun = false →
      key ∉ (partitionUpdatedItems lastRun u data).1.map Prod.fst ∧
      (key, value) ∈ (partitionUpdatedItems lastRun u data).2 ∧
      key ∈ (instanceUpdate inst (partitionUpdatedItems lastRun u data).2).updated_items) ∧
    (∀ i, value = FieldValue.ref (some i) → lastRun = true →
      (key, PatchValue.refId i) ∈ (partitionUpdatedItems lastRun u data).1) := by
  refine ⟨?_, ?_, ?_⟩
  · intro hval
    subst hval
    have hdef : deferField lastRun key (FieldValue.ref none) = true := by
      simp [deferField]
    have hdefmem := (mem_partition_deferred lastRun u data key
      (FieldValue.ref none)).mpr ⟨hmem, hupd, hdef⟩
    refine ⟨?_, hdefmem, instanceUpdate_marks inst _ key
      (List.mem_map.mpr ⟨(key, FieldValue.ref none), hdefmem, rfl⟩)⟩
    intro hpk
    rcases List.mem_map.mp hpk with ⟨⟨k, pv⟩, hkpv, hfst⟩
    have hk : k = key := hfst
    subst hk
    rcases (mem_partition_patch lastRun u data k pv).mp hkpv with
      ⟨v, hvmem, _, hvdef, _⟩
    have hv : v = FieldValue.ref none := keyVal_unique data k v _ hnodup hvmem hmem
    rw [hv] at hvdef
    simp [deferField] at hvdef
  · intro i hval hsw hlr
    subst hval
    subst hlr
    have hdef : deferField false key (FieldValue.ref (some i)) = true := by
      simp [deferField, hsw]
    have hdefmem := (mem_partition_deferred false u data key
      (FieldValue.ref (some i))).mpr ⟨hmem, hupd, hdef⟩
    refine ⟨?_, hdefmem, instanceUpdate_marks inst _ key
      (List.mem_map.mpr ⟨(key, FieldValue.ref (some i)), hdefmem, rfl⟩)⟩
    intro hpk
    rcases List.mem_map.mp hpk with ⟨⟨k, pv⟩, hkpv, hfst⟩
    have hk : k = key := hfst
    subst hk
    rcases (mem_partition_patch false u data k pv).mp hkpv with
      ⟨v, hvmem, _, hvdef, _⟩
    have hv : v = FieldValue.ref (some i) := keyVal_unique data k v _ hnodup hvmem hmem
    rw [hv] at hvdef
    simp [deferField, hsw] at hvdef
  · intro i hval hlr
    subst hval
    subst hlr
    refine (mem_partition_patch true u data key (PatchValue.refId i)).mpr
      ⟨FieldValue.ref (some i), hmem, hupd, ?_, ?_⟩
    · simp [deferField]
    · simp [patchValueOf]

/-- C1 witness: the deferral of an unresolved reference and of a
primary_ip field in a non-final pass, and the inclusion of a resolved
primary_ip field in the final pass, at a concrete instance. -/
theorem updateObject_upsert_partition_witness :
    ("site" ∉ (partitionUpdatedItems false ["primary_ip4", "site"]
        [("primary_ip4", FieldValue.ref (some 5)),
          ("site", FieldValue.ref none)]).1.map Prod.fst ∧
      ("site", FieldValue.ref none) ∈ (partitionUpdatedItems false
        ["primary_ip4", "site"]
        [("primary_ip4", FieldValue.ref (some 5)), ("site", FieldValue.ref none)]).2 ∧
      "site" ∈ (instanceUpdate ⟨[], []⟩ (partitionUpdatedItems false
        ["primary_ip4", "site"]
        [("primary_ip4", FieldValue.ref (some 5)),
          ("site", FieldValue.ref none)]).2).updated_items) ∧
    ("primary_ip4", PatchValue.refId 5) ∈ (partitionUpdatedItems true
      ["primary_ip4", "site"]
      [("primary_ip4", FieldValue.ref (some 5)), ("site", FieldValue.ref none)]).1 := by
  refine ⟨(updateObject_upsert_partition false ["primary_ip4", "site"]
      [("primary_ip4", FieldValue.ref (some 5)), ("site", FieldValue.ref none)]
      ⟨[], []⟩ "site" (FieldValue.ref none)
      (by decide) (by decide) (by decide)).1 rfl,
    (updateObject_upsert_partition true ["primary_ip4", "site"]
      [("primary_ip4", FieldValue.ref (some 5)), ("site", FieldValue.ref none)]
      ⟨[], []⟩ "primary_ip4" (FieldValue.ref (some 5))
      (by decide) (by decide) (by decide)).2.2 5 rfl rfl⟩

lemma pruneWouldDelete_iff (today : DateTime) (disabled : List String)
    (delay : Nat) (obj : PruneObject) :
    pruneWouldDelete today disabled delay obj = true ↔
      obj.source = none ∧ orphaned_tag ∈ obj.tags ∧
      ∃ raw, obj.last_updated = some raw ∧
        (∀ t ∈ obj.tags, t ∉ disabled) ∧ obj.deleted = false ∧
        ∃ dt, strptimeYmdHMS (raw.take 19) = some dt ∧
          (delay : Int) ≤ timedeltaDays today dt := by
  rcases obj with ⟨src, tags, lu, del⟩
  cases src with
  | some s => simp [pruneWouldDelete]
  | none =>
      cases lu with
      | none => simp [pruneWouldDelete]
      | some raw =>
          by_cases horph : tags.contains orphaned_tag
          · by_cases hdis : tags.any (fun t => disabled.contains t)
            · have hex : ∃ t ∈ tags, t ∈ disabled := by
                rcases List.any_eq_true.mp hdis with ⟨t, ht, htd⟩
                exact ⟨t, ht, List.elem_iff.mp htd⟩
              simp only [pruneWouldDelete, horph, hdis]
              simp only [Option.isSome_none, Bool.not_true, if_false]
              constructor
              · intro h; cases h
              · rintro ⟨-, -, raw', hraw, hall, -⟩
                exfalso
                rcases hex with ⟨t, ht, htd⟩
                exact hall t ht htd
            · by_cases hdel : del
              · subst hdel
                simp [pruneWouldDelete, horph, hdis]
              · cases hparse : strptimeYmdHMS (raw.take 19) with
                | none =>
                    simp [pruneWouldDelete, horph, hdis, hdel, hparse]
                | some dt =>
                    simp [pruneWouldDelete, horph, hdis, hdel, hparse,
                      List.elem_iff.mp horph]
          · simp only [pruneWouldDelete, horph]
            constructor
            · intro h
              simp at h
            · rintro ⟨-, horph', -⟩
              exact absurd (List.elem_iff.mpr horph') horph

/-- C4: the pruning engine deletes an instance of a prunable record type
if and only if it has no source attribution, carries the orphan tag, has
a last_updated value, shares no tag with a currently disabled source, is
not already marked deleted, and the whole days from the second-precision
truncated timestamp to now reach the configured delay; a record last
updated 31 days ago is deleted under a 30-day delay and one last updated
29 days ago is not. -/
theorem pruneData_delete_iff :
    (∀ (today : DateTime) (disabled : List String) (delay : Nat) (obj : PruneObject),
      pruneWouldDelete today disabled delay obj = true ↔
        obj.source = none ∧ orphaned_tag ∈ obj.tags ∧
        ∃ raw, obj.last_updated = some raw ∧
          (∀ t ∈ obj.tags, t ∉ disabled) ∧ obj.deleted = false ∧
          ∃ dt, strptimeYmdHMS (raw.take 19) = some dt ∧
            (delay : Int) ≤ timedeltaDays today dt) ∧
    pruneWouldDelete ⟨2026, 10, 12, 0, 0, 0⟩ [] 30
      ⟨none, [orphaned_tag], some "2026-09-11T00:00:00", false⟩ = true ∧
    pruneWouldDelete ⟨2026, 10, 12, 0, 0, 0⟩ [] 30
      ⟨none, [orphaned_tag], some "2026-09-13T00:00:00", false⟩ = false :=
  ⟨pruneWouldDelete_iff, by decide, by decide⟩

/-- C10: an otherwise prune-eligible instance whose last_updated value,
truncated to 19 characters, does not parse under %Y-%m-%dT%H:%M:%S is
skipped: no delete is issued for it (the caught ValueError is the
parser's none result, so the decision is total and raises nothing). -/
theorem pruneData_skips_unparseable_timestamp
    (today : DateTime) (disabled : List String) (delay : Nat) (obj : PruneObject)
    (raw : String) (hlu : obj.last_updated = some raw)
    (hparse : strptimeYmdHMS (raw.take 19) = none) :
    pruneWouldDelete today disabled delay obj = false := by
  cases hpd : pruneWouldDelete today disabled delay obj with
  | false => rfl
  | true =>
      exfalso
      rcases (pruneWouldDelete_iff today disabled delay obj).mp hpd with
        ⟨-, -, raw', hraw', -, -, dt, hdt, -⟩
      rw [hlu] at hraw'
      injection hraw' with h
      rw [← h] at hdt
      rw [hparse] at hdt
      cases hdt

/-- C10 witness: a concrete orphaned instance with a malformed timestamp
is not deleted. -/
theorem pruneData_skips_unparseable_timestamp_witness :
    pruneWouldDelete ⟨2026, 10, 12, 0, 0, 0⟩ [] 30
      ⟨none, [orphaned_tag], some "corrupted timestamp", false⟩ = false :=
  pruneData_skips_unparseable_timestamp ⟨2026, 10, 12, 0, 0, 0⟩ [] 30
    ⟨none, [orphaned_tag], some "corrupted timestamp", false⟩
    "corrupted timestamp" rfl (by decide)

/-- C9: a record instance whose deleted flag is true receives no further
request: the pruning decision is false for it, the interface deletion
loop of prune_data only targets interfaces whose deleted flag is false,
and a teardown round only issues DELETE requests for objects whose
deleted flag is false. -/
theorem deleted_flag_blocks_further_requests :
    (∀ (today : DateTime) (disabled : List String) (delay : Nat) (obj : PruneObject),
      obj.deleted = true → pruneWouldDelete today disabled delay obj = false) ∧
    (∀ (ifaces : List InterfaceObj) (i : Nat), i ∈ deleteInterfacesRequests ifaces →
      ∃ o ∈ ifaces, o.nb_id = i ∧ o.deleted = false) ∧
    (∀ (objs : List TearObj) (o : TearObj), o ∈ teardownRoundRequests objs →
      o.deleted = false) := by
  refine ⟨?_, ?_, ?_⟩
  · intro today disabled delay obj hdel
    cases hpd : pruneWouldDelete today disabled delay obj with
    | false => rfl
    | true =>
        exfalso
        rcases (pruneWouldDelete_iff today disabled delay obj).mp hpd with
          ⟨-, -, raw, -, -, hdelf, -⟩
        rw [hdel] at hdelf
        cases hdelf
  · intro ifaces i hi
    rcases List.mem_map.mp hi with ⟨o, hofil, hoi⟩
    rcases List.mem_filter.mp hofil with ⟨homem, hond⟩
    exact ⟨o, homem, hoi, by simpa using hond⟩
  · intro objs o ho
    rcases List.mem_filter.mp ho with ⟨-, hcond⟩
    simp only [teardownEligible, Bool.and_eq_true, Bool.not_eq_true'] at hcond
    exact hcond.1.2

/-- C9 witness: the pruning part applied to a concrete already-deleted
orphaned record. -/
theorem deleted_flag_blocks_further_requests_witness :
    pruneWouldDelete ⟨2026, 10, 12, 0, 0, 0⟩ [] 30
      ⟨none, [orphaned_tag], some "2026-09-11T00:00:00", true⟩ = false :=
  deleted_flag_blocks_further_requests.1 ⟨2026, 10, 12, 0, 0, 0⟩ [] 30
    ⟨none, [orphaned_tag], some "2026-09-11T00:00:00", true⟩ rfl

/-- C5 counterexample: with a single non-deleted prunable non-tag object
lacking the primary tag, a round issues no DELETE request at all (nothing
is deleted), yet the loop does not stop after such a round and does not
delete the tag records: all 10 rounds run and end with the warning. -/
theorem teardown_zero_deletion_round_does_not_stop :
    teardownRoundRequests [⟨true, false, false, [], true⟩] = [] ∧
    justDeleteAllTheThings [⟨true, false, false, [], true⟩]
      = (List.replicate 10 true, false) := by
  exact ⟨by decide, by decide⟩

lemma teardownLoop_spec (fuel : Nat) :
    ∀ objs : List TearObj,
      (teardownLoop fuel objs).1.length ≤ fuel ∧
      ((teardownLoop fuel objs).2 = true ↔
        (teardownLoop fuel objs).1.getLast? = some false) ∧
      ((teardownLoop fuel objs).2 = false →
        (teardownLoop fuel objs).1.length = fuel ∧
        ∀ b ∈ (teardownLoop fuel objs).1, b = true) ∧
      (∀ b ∈ (teardownLoop fuel objs).1.dropLast, b = true) := by
  induction fuel with
  | zero =>
      intro objs
      simp [teardownLoop]
  | succ fuel ih =>
      intro objs
      by_cases hf : teardownRoundFound objs = true
      · have hres : teardownLoop (fuel + 1) objs =
            (true :: (teardownLoop fuel (teardownRoundUpdate objs)).1,
              (teardownLoop fuel (teardownRoundUpdate objs)).2) := by
          simp [teardownLoop, hf]
        rcases ih (teardownRoundUpdate objs) with ⟨hlen, hiff, hfalse, hdrop⟩
        rw [hres]
        refine ⟨by simpa using Nat.succ_le_succ hlen, ?_, ?_, ?_⟩
        · rcases htr : (teardownLoop fuel (teardownRoundUpdate objs)).1 with _ | ⟨b, rest⟩
          · rw [htr] at hiff
            simp only [List.getLast?_nil] at hiff
            simp only [List.getLast?_singleton]
            constructor
            · intro h
              exact absurd (hiff.mp h) (by simp)
            · intro h
              exact absurd h (by simp)
          · rw [htr] at hiff
            simpa [List.getLast?_cons_cons] using hiff
        · intro h
          rcases hfalse h with ⟨hl, hall⟩
          refine ⟨by simp [hl], ?_⟩
          intro b hb
          rcases List.mem_cons.mp hb with rfl | hb'
          · rfl
          · exact hall b hb'
        · rcases htr : (teardownLoop fuel (teardownRoundUpdate objs)).1 with _ | ⟨b, rest⟩
          · simp
          · rw [htr] at hdrop
            rw [show (true :: b :: rest).dropLast = true :: (b :: rest).dropLast from rfl]
            intro x hx
            rcases List.mem_cons.mp hx with rfl | hx'
            · rfl
            · exact hdrop x hx' 
      · have hres : teardownLoop (fuel + 1) objs = ([false], true) := by
          simp [teardownLoop, hf]
        rw [hres]
        refine ⟨by simp, by simp, ?_, by simp⟩
        intro h
        cases h

/-- C5 (amended): bulk teardown executes at most 10 rounds; a round in
which no non-deleted instance of a prunable non-tag type is found (the
found flag is false) triggers deletion of the two bookkeeping tag
records and stops the loop, every earlier round having found such
instances; completing 10 rounds that all found such instances ends with
the warning and the tag records are not deleted. -/
theorem justDeleteAllTheThings_rounds :
    ∀ objs : List TearObj,
      (justDeleteAllTheThings objs).1.length ≤ 10 ∧
      ((justDeleteAllTheThings objs).2 = true ↔
        (justDeleteAllTheThings objs).1.getLast? = some false) ∧
      ((justDeleteAllTheThings objs).2 = false →
        (justDeleteAllTheThings objs).1.length = 10 ∧
        ∀ b ∈ (justDeleteAllTheThings objs).1, b = true) ∧
      (∀ b ∈ (justDeleteAllTheThings objs).1.dropLast, b = true) :=
  fun objs => teardownLoop_spec 10 objs

/-- C5 witness: with no objects at all, the first round finds nothing
and the tag records are deleted. -/
theorem justDeleteAllTheThings_rounds_witness :
    (justDeleteAllTheThings []).2 = true :=
  (justDeleteAllTheThings_rounds []).2.1.mpr (by decide)

lemma updateObjectRun_resolved_mono (deps : Nat → List Nat) :
    ∀ (fuel t : Nat) (st : List Nat × List Nat), st.1 ⊆ (updateObjectRun deps fuel t st).1 := by
  intro fuel
  induction fuel with
  | zero =>
      intro t st
      exact fun x hx => hx
  | succ fuel ih =>
      intro t st
      have hfold : ∀ (ds : List Nat) (s : List Nat × List Nat),
          s.1 ⊆ (ds.foldl
            (fun s d => if d ∈ s.1 then s else updateObjectRun deps fuel d s) s).1 := by
        intro ds
        induction ds with
        | nil => intro s; exact fun x hx => hx
        | cons d ds ihd =>
            intro s
            simp only [List.foldl_cons]
            by_cases hd : d ∈ s.1
            · simpa [hd] using ihd s
            · intro x hx
              simp only [if_neg hd]
              exact ihd (updateObjectRun deps fuel d s) (ih d s hx)
      intro x hx
      simp only [updateObjectRun]
      exact List.mem_cons_of_mem _ (hfold (deps t) st hx)

lemma updateObjectRun_count (deps : Nat → List Nat) :
    ∀ (fuel t : Nat) (st : List Nat × List Nat) (x : Nat),
      x ∈ st.1 → x ≠ t →
      (updateObjectRun deps fuel t st).2.count x = st.2.count x := by
  intro fuel
  induction fuel with
  | zero =>
      intro t st x _ _
      rfl
  | succ fuel ih =>
      intro t st x hx hxt
      have hfold : ∀ (ds : List Nat) (s : List Nat × List Nat),
          x ∈ s.1 →
          (ds.foldl
            (fun s d => if d ∈ s.1 then s else updateObjectRun deps fuel d s) s).2.count x
            = s.2.count x := by
        intro ds
        induction ds with
        | nil => intro s _; rfl
        | cons d ds ihd =>
            intro s hs
            simp only [List.foldl_cons]
            by_cases hd : d ∈ s.1
            · simpa [hd] using ihd s hs
            · have hxd : x ≠ d := fun h => hd (h ▸ hs)
              simp only [if_neg hd]
              rw [ihd (updateObjectRun deps fuel d s)
                (updateObjectRun_resolved_mono deps fuel d s hs)]
              exact ih d s x hs hxd
      simp only [updateObjectRun]
      rw [List.count_append, hfold (deps t) st hx]
      have hzero : List.count x [t] = 0 :=
        List.count_eq_zero.mpr (by simp [hxt])
      rw [hzero]
      rfl

/-- C6 counterexample: with record type 0 a declared dependency of type 1
and the top-level loop requesting 1 before 0, the instances of type 0
are iterated twice in one pass: once by the dependency recursion inside
the processing of 1 and once more when the top-level loop reaches 0,
because update_object never consults the resolved set for its own
argument. -/
theorem resolvedSet_processing_counterexample :
    synchronizerPass (fun t => if t = 1 then [0] else []) [1, 0] 5 = [0, 1, 0] ∧
    (synchronizerPass (fun t => if t = 1 then [0] else []) [1, 0] 5).count 0 = 2 :=
  ⟨by decide, by decide⟩

/-- C6 (amended): within a pass the per-run resolved set guarantees that
a record type already resolved is never iterated again through the
dependency recursion: an update_object call for a different type leaves
the iteration count of the resolved type unchanged.  Only the top-level
loop, which does not consult the set, iterates such a type once more. -/
theorem resolvedSet_blocks_recursive_reprocessing
    (deps : Nat → List Nat) (fuel t : Nat) (st : List Nat × List Nat) (x : Nat)
    (hx : x ∈ st.1) (hxt : x ≠ t) :
    (updateObjectRun deps fuel t st).2.count x = st.2.count x :=
  updateObjectRun_count deps fuel t st x hx hxt

/-- C6 witness: with type 0 already resolved, processing type 1 (which
depends on 0) does not iterate the instances of 0 again. -/
theorem resolvedSet_blocks_recursive_reprocessing_witness :
    (updateObjectRun (fun t => if t = 1 then [0] else []) 3 1 ([0], [0])).2.count 0
      = ([0] : List Nat).count 0 :=
  resolvedSet_blocks_recursive_reprocessing (fun t => if t = 1 then [0] else [])
    3 1 ([0], [0]) 0 (by decide) (by decide)

/-- C8 counterexample: cache content that unpickles to a list holding a
non-mapping value makes the timestamp extraction of line 449 raise an
uncaught error: the run aborts instead of falling back to a full
fetch. -/
theorem cache_unexpected_content_aborts :
    readCachedData (PickleLoad.loaded (some [CacheEntry.nonDict])) =
      Except.error "AttributeError" := rfl

/-- C8 (amended): an absent, unreadable or unpicklable cache file and
content that unpickles to None are treated as a cache miss: the run
continues and the record type is fully fetched; a list of mappings never
aborts either, and when no mapping carries a timestamp the fetch is
likewise a full one. -/
theorem cache_read_failure_is_cache_miss :
    cacheFetchIsFull PickleLoad.loadFail = Except.ok true ∧
    cacheFetchIsFull (PickleLoad.loaded none) = Except.ok true ∧
    (∀ es : List CacheEntry, (∀ e ∈ es, e = CacheEntry.dict none) →
      cacheFetchIsFull (PickleLoad.loaded (some es)) = Except.ok true) ∧
    (∀ es : List CacheEntry, (∀ e ∈ es, ∃ lu, e = CacheEntry.dict lu) →
      ∃ b, cacheFetchIsFull (PickleLoad.loaded (some es)) = Except.ok b) := by
  refine ⟨rfl, rfl, ?_, ?_⟩
  · intro es hall
    by_cases hlen : es.length > 0
    · have hany : (es.any fun e =>
          match e with
          | CacheEntry.nonDict => true
          | CacheEntry.dict _ => false) = false := by
        rw [List.any_eq_false]
        intro e he
        rw [hall e he]
        simp
      have hfm : (es.filterMap fun e =>
          match e with
          | CacheEntry.dict lu => lu
          | CacheEntry.nonDict => none) = [] := by
        rw [List.filterMap_eq_nil_iff]
        intro e he
        rw [hall e he]
      simp [cacheFetchIsFull, readCachedData, hlen, hany, hfm]
    · simp [cacheFetchIsFull, readCachedData, hlen]
  · intro es hall
    by_cases hlen : es.length > 0
    · have hany : (es.any fun e =>
          match e with
          | CacheEntry.nonDict => true
          | CacheEntry.dict _ => false) = false := by
        rw [List.any_eq_false]
        intro e he
        rcases hall e he with ⟨lu, rfl⟩
        simp
      cases hfm : (es.filterMap fun e =>
          match e with
          | CacheEntry.dict lu => lu
          | CacheEntry.nonDict => none) with
      | nil =>
          exact ⟨true, by simp [cacheFetchIsFull, readCachedData, hlen, hany, hfm]⟩
      | cons x xs =>
          exact ⟨false, by simp [cacheFetchIsFull, readCachedData, hlen, hany, hfm]⟩
    · exact ⟨true, by simp [cacheFetchIsFull, readCachedData, hlen]⟩

/-- C8 witness: a concrete cached list of one timestamp-less mapping
leads to a full fetch without an error. -/
theorem cache_read_failure_is_cache_miss_witness :
    cacheFetchIsFull (PickleLoad.loaded (some [CacheEntry.dict none])) = Except.ok true :=
  cache_read_failure_is_cache_miss.2.2.1 [CacheEntry.dict none] (by decide)

end NetboxSync
